import Mathlib

/-
Formal model of the document-to-answer retrieval pipeline of the PDF chat
application.  The definitions mirror the source code: the text chunker
(langchain RecursiveCharacterTextSplitter as instantiated by the
application with separators ["\n\n", "\n", " ", ""], keep_separator = true
and character-count length function), the in-memory AIManager state
(sentence-transformer embeddings, faiss IndexFlatL2 index and chunk
corpus), the corpus handling of the upload route, prompt assembly, the
generation wrapper and the chat_message route.  External model calls
(sentence transformer, gemini) are passed in as oracle functions; vectors
are modelled with integer components so that everything is computable.
-/

/-- Python str whitespace predicate (space, tab, newline, carriage return,
vertical tab, form feed), as used by str.strip(). -/
def isPyWs (c : Char) : Bool :=
  c = ' ' || c = '\t' || c = '\n' || c = '\r' || c = '\x0b' || c = '\x0c'

/-- Remove trailing Python whitespace. -/
def trimEnd (l : List Char) : List Char :=
  (l.reverse.dropWhile isPyWs).reverse

/-- Python str.strip() on a list of characters. -/
def pyStrip (l : List Char) : List Char :=
  trimEnd (l.dropWhile isPyWs)

/-- Python str.strip() on strings. -/
def pyStripStr (s : String) : String :=
  String.mk (pyStrip s.data)

/-- Concatenation of a list of lists. -/
def flat {α : Type} : List (List α) → List α
  | [] => []
  | x :: xs => x ++ flat xs

/-- Does sep occur as a prefix of text (Bool-valued). -/
def startsWith : List Char → List Char → Bool
  | _, [] => true
  | [], _ :: _ => false
  | c :: cs, d :: ds => c = d && startsWith cs ds

/-- Index of the leftmost occurrence of sep in text (re.search on the
escaped literal pattern). -/
def findSep (sep : List Char) : List Char → Option Nat
  | [] => if startsWith [] sep then some 0 else none
  | c :: rest =>
    if startsWith (c :: rest) sep then some 0
    else (findSep sep rest).map (fun n => n + 1)

/-- Fuel-indexed splitting of text at the non-overlapping leftmost
occurrences of sep (re.split on the escaped literal pattern); returns the
pieces between the occurrences.  The fuel only needs to dominate the text
length. -/
def splitOnSepF (sep : List Char) : Nat → List Char → List (List Char)
  | 0, text => [text]
  | fuel + 1, text =>
    match findSep sep text with
    | none => [text]
    | some i => text.take i :: splitOnSepF sep fuel (text.drop (i + sep.length))

/-- re.split pieces of text at sep. -/
def splitOnSep (sep text : List Char) : List (List Char) :=
  splitOnSepF sep text.length text

/-- keep_separator = true: each separator occurrence is reattached to the
front of the piece that follows it; the first piece stays bare. -/
def withSepKeep (sep : List Char) : List (List Char) → List (List Char)
  | [] => []
  | p :: ps => p :: ps.map (fun q => sep ++ q)

/-- The final filter of _split_text_with_regex: drop empty pieces. -/
def dropEmpties : List (List Char) → List (List Char)
  | [] => []
  | s :: rest => if s = [] then dropEmpties rest else s :: dropEmpties rest

/-- langchain _split_text_with_regex with keep_separator = true: split at
sep keeping each separator attached to the following piece; the empty
separator splits into single characters. -/
def splitWithSep (sep text : List Char) : List (List Char) :=
  if sep = [] then text.map (fun c => [c])
  else dropEmpties (withSepKeep sep (splitOnSep sep text))

/-- The separator-selection loop of RecursiveCharacterTextSplitter's
_split_text: walk the separator list and stop at the first separator that
is empty or occurs in the text; returns it with the remaining separators
(the remainder is empty when the empty separator was chosen). -/
def chooseSepAux (text : List Char) : List (List Char) → Option (List Char × List (List Char))
  | [] => none
  | s :: rest =>
    if s = [] then some ([], [])
    else if (findSep s text).isSome then some (s, rest)
    else chooseSepAux text rest

/-- Separator selection with the Python default (last separator, no
remaining separators) when no separator matched. -/
def chooseSep (seps : List (List Char)) (text : List Char) : List Char × List (List Char) :=
  (chooseSepAux text seps).getD (seps.getLastD [], [])

/-- Accumulator of langchain TextSplitter._merge_splits: the emitted docs,
the current window of splits, and the running character total of the
window. -/
structure MergeAcc where
  docs : List (List Char)
  cur : List (List Char)
  total : Nat
deriving Repr, DecidableEq

/-- _join_docs with the empty join separator (keep_separator = true): join
the window, strip it, and drop it entirely when the stripped text is
empty. -/
def joinStrip (cur : List (List Char)) : List (List Char) :=
  let t := pyStrip (flat cur)
  if t = [] then [] else [t]

/-- The pop loop of _merge_splits: drop splits from the front of the
window while the window exceeds the overlap, or while it is non-empty and
still cannot accommodate the next split of length L. -/
def popLoop (S O L : Nat) : List (List Char) → Nat → List (List Char) × Nat
  | [], total => ([], total)
  | d :: rest, total =>
    if O < total ∨ (S < total + L ∧ 0 < total) then
      popLoop S O L rest (total - d.length)
    else (d :: rest, total)

/-- One iteration of the _merge_splits loop for the next split d: when the
window cannot accommodate d, a non-empty window is emitted and popped down;
d is then always appended to the window. -/
def mergeStep (S O : Nat) (acc : MergeAcc) (d : List Char) : MergeAcc :=
  let L := d.length
  if S < acc.total + L then
    if acc.cur = [] then ⟨acc.docs, acc.cur ++ [d], acc.total + L⟩
    else
      let p := popLoop S O L acc.cur acc.total
      ⟨acc.docs ++ joinStrip acc.cur, p.1 ++ [d], p.2 + L⟩
  else ⟨acc.docs, acc.cur ++ [d], acc.total + L⟩

/-- langchain TextSplitter._merge_splits with the empty join separator. -/
def mergeSplits (S O : Nat) (splits : List (List Char)) : List (List Char) :=
  let acc := splits.foldl (mergeStep S O) ⟨[], [], 0⟩
  acc.docs ++ joinStrip acc.cur

/-- Accumulator of the good-splits loop of _split_text. -/
structure SplitAcc where
  final : List (List Char)
  good : List (List Char)
deriving Repr, DecidableEq

/-- One iteration of the _split_text loop: a split shorter than the chunk
size is buffered; an oversize split first flushes the buffer through
_merge_splits and is then handled by ext (kept whole when no separators
remain, or split recursively with the remaining separators). -/
def splitStep (S O : Nat) (ext : List Char → List (List Char))
    (acc : SplitAcc) (s : List Char) : SplitAcc :=
  if s.length < S then ⟨acc.final, acc.good ++ [s]⟩
  else
    ⟨(if acc.good = [] then acc.final else acc.final ++ mergeSplits S O acc.good) ++ ext s, []⟩

/-- RecursiveCharacterTextSplitter._split_text, by recursion on the number
of separators still available (the recursion always proceeds to a strict
suffix of the separator list, so fuel = length of the separator list is
enough). -/
def splitTextFuel (S O : Nat) : Nat → List (List Char) → List Char → List (List Char)
  | 0, _, _ => []
  | fuel + 1, seps, text =>
    let sn := chooseSep seps text
    let splits := splitWithSep sn.1 text
    let ext : List Char → List (List Char) := fun s =>
      if sn.2 = [] then [s] else splitTextFuel S O fuel sn.2 s
    let acc := splits.foldl (splitStep S O ext) ⟨[], []⟩
    if acc.good = [] then acc.final else acc.final ++ mergeSplits S O acc.good

/-- The separator list the application configures: paragraph break, line
break, space, character. -/
def repoSeparators : List (List Char) := [['\n', '\n'], ['\n'], [' '], []]

/-- split_text of the splitter as instantiated by the application. -/
def split_text (S O : Nat) (text : List Char) : List (List Char) :=
  splitTextFuel S O repoSeparators.length repoSeparators text

/-- A langchain Document as the application builds them: the stripped
chunk text plus source, chunk_id and total_chunks metadata. -/
structure Document where
  page_content : String
  source : String
  chunk_id : Nat
  total_chunks : Nat
deriving Repr, DecidableEq

/-- The enumerate-and-filter loop of create_text_chunks: chunk i is kept
exactly when it is non-empty after stripping; chunk_id is the enumerate
index i over the pre-filter chunk list, and total_chunks the pre-filter
chunk count. -/
def buildDocs (filename : String) (total : Nat) : List (List Char) → Nat → List Document
  | [], _ => []
  | c :: rest, i =>
    let t := pyStrip c
    if t = [] then buildDocs filename total rest (i + 1)
    else ⟨String.mk t, filename, i, total⟩ :: buildDocs filename total rest (i + 1)

/-- create_text_chunks of app.py: the splitter constructor raises (a
ValueError re-raised by the function) exactly when the overlap exceeds the
chunk size; otherwise the text is split and wrapped into Documents. -/
def create_text_chunks (text : List Char) (filename : String)
    (chunk_size chunk_overlap : Nat) : Except String (List Document) :=
  if chunk_size < chunk_overlap then
    Except.error ("Got a larger chunk overlap than chunk size")
  else
    let chunks := split_text chunk_size chunk_overlap text
    Except.ok (buildDocs filename chunks.length chunks 0)

/-- In-memory state of AIManager. -/
structure AIState where
  gemini_available : Bool
  embeddings_available : Bool
  document_chunks : List Document
  faiss_index : Option (List (List Int))
deriving Repr, DecidableEq

/-- Squared euclidean distance between two embedding vectors (the faiss
IndexFlatL2 metric), over integer-valued model vectors. -/
def sqDist (q v : List Int) : Int :=
  ((q.zip v).map (fun p => (p.1 - p.2) * (p.1 - p.2))).foldl (fun a b => a + b) 0

/-- Ordering on (distance, insertion index) pairs: by distance, ties by
insertion index. -/
def pairLe (a b : Int × Int) : Bool :=
  a.1 < b.1 || (a.1 = b.1 && a.2 ≤ b.2)

def insertPair (a : Int × Int) : List (Int × Int) → List (Int × Int)
  | [] => [a]
  | b :: rest => if pairLe a b then a :: b :: rest else b :: insertPair a rest

/-- Insertion sort of (distance, insertion index) pairs. -/
def sortPairs : List (Int × Int) → List (Int × Int)
  | [] => []
  | a :: rest => insertPair a (sortPairs rest)

/-- Distance value faiss reports for the padding slots (FLT_MAX). -/
def faissPadDist : Int := 340282346638528859811704183484516925440

/-- faiss IndexFlatL2.search: the k nearest stored vectors by squared L2
distance, ascending; when fewer than k vectors are stored, the result is
padded to length k with label -1 (and FLT_MAX distance). -/
def faissKnn (vecs : List (List Int)) (q : List Int) (k : Nat) : List (Int × Int) :=
  let scored := vecs.enum.map (fun p => (sqDist q p.2, (p.1 : Int)))
  let top := (sortPairs scored).take k
  top ++ List.replicate (k - top.length) (faissPadDist, -1)

/-- Python list indexing with an Int index: negative indices count from
the end of the list; an out-of-range index raises IndexError, modelled as
none. -/
def pyGet (l : List Document) (i : Int) : Option Document :=
  if 0 ≤ i then l[i.toNat]?
  else if (-i).toNat ≤ l.length then l[l.length - (-i).toNat]?
  else none

/-- The result-collection loop of search_similar_documents: keep the
chunk at each label idx that satisfies the idx < len(document_chunks)
guard; none models an IndexError escaping the loop body. -/
def gatherChunks (chunks : List Document) : List Int → Option (List Document)
  | [] => some []
  | i :: rest =>
    if i < (chunks.length : Int) then
      match pyGet chunks i, gatherChunks chunks rest with
      | some d, some ds => some (d :: ds)
      | _, _ => none
    else gatherChunks chunks rest

/-- AIManager.search_similar_documents: [] when embeddings are unavailable
or no faiss index exists; otherwise embed the query (qembed is the
sentence-transformer), search the index and collect the guarded chunks;
any exception inside the try block also yields []. -/
def search_similar_documents (qembed : String → List Int) (st : AIState)
    (query : String) (k : Nat) : List Document :=
  if st.embeddings_available = false then []
  else
    match st.faiss_index with
    | none => []
    | some vecs =>
      match gatherChunks st.document_chunks ((faissKnn vecs (qembed query) k).map Prod.snd) with
      | some ds => ds
      | none => []

/-- AIManager.create_embeddings: fails (returns false) when embeddings are
unavailable; otherwise it replaces the stored corpus with exactly the
chunks of this call and rebuilds the faiss index from their vectors (emb
is the sentence-transformer). -/
def create_embeddings (emb : String → List Int) (st : AIState)
    (document_chunks : List Document) : Bool × AIState :=
  if st.embeddings_available = false then (false, st)
  else
    (true,
      { st with
        document_chunks := document_chunks
        faiss_index := some (document_chunks.map (fun c => emb c.page_content)) })

/-- The corpus and index handling of the upload route: the chunks of all
files of this request are gathered into one batch, and when the batch is
non-empty it is handed to create_embeddings (the session list of uploaded
file names is bookkeeping outside this model). -/
def upload_documents (emb : String → List Int) (st : AIState)
    (batches : List (List Document)) : AIState :=
  let all := flat batches
  if all = [] then st else (create_embeddings emb st all).2

def promptHeader : String :=
  "You are a helpful AI assistant that answers questions based on the provided context from uploaded PDF documents.\n\nContext from uploaded documents:\n"

def promptMid : String := "\n\nUser Question: "

def promptTail : String :=
  "\n\nInstructions:\n- Answer the question based on the context provided\n- If the answer is not in the context, say so politely\n- Be concise but informative\n- If no context is provided, mention that no documents were found\n\nAnswer:"

/-- The context block of the prompt of AIManager.generate_response: the
empty string when there are no relevant documents, else the text of the
top 3 chunks joined by newlines. -/
def contextOf (relevant_docs : List Document) : String :=
  if relevant_docs = [] then ""
  else String.intercalate ("\n") ((relevant_docs.take 3).map Document.page_content)

/-- The full prompt of AIManager.generate_response (the f-string, as
concatenation). -/
def aiPrompt (relevant_docs : List Document) (query : String) : String :=
  promptHeader ++ (contextOf relevant_docs ++ (promptMid ++ (query ++ promptTail)))

/-- AIManager.generate_response: a fixed placeholder when gemini is not
configured; the caught-exception placeholder when the generation call
fails; else the generated text (gen is the gemini call on the assembled
prompt). -/
def generate_response (gen : String → Except String String) (st : AIState)
    (query : String) (relevant_docs : List Document) : String :=
  if st.gemini_available = false then
    "AI is currently unavailable. Please check your API configuration."
  else
    match gen (aiPrompt relevant_docs query) with
    | Except.ok t => t
    | Except.error e => "I apologize, but I encountered an error: " ++ e

/-- The fallback system message of ChatManager.generate_response
(chat.py): with no context documents the system message does not mention
missing context at all. -/
def chatFallbackSystemMessage (context_docs : List Document) : String :=
  if context_docs = [] then
    "You are a helpful AI assistant. Answer the user\x27s question to the best of your ability."
  else
    "You are a helpful AI assistant. Use the following context to answer the user\x27s question:\n\nContext:\n" ++
      (String.intercalate ("\n") (context_docs.map Document.page_content) ++
        "\n\nIf the answer is not in the context, say so politely.")

/-- One conversation turn as stored in the session message list. -/
structure Msg where
  role : String
  content : String
  timestamp : String
deriving Repr, DecidableEq

/-- The AIManager operations a chat_message request can invoke. -/
inductive AICall where
  | searchDocs
  | generateReply
deriving Repr, DecidableEq

/-- Result of one chat_message request. -/
structure ChatOutcome where
  success : Bool
  response : String
  messages : List Msg
  calls : List AICall
deriving Repr, DecidableEq

/-- The chat_message route (for an authenticated session): reject a
message that is empty after stripping; with no uploaded files answer the
fixed upload prompt without touching the AI manager; otherwise retrieve
with k = 5 and generate.  In both answered cases the user turn and the
assistant turn are appended to the session message list with one shared
timestamp.  calls records which AIManager operations the request
invoked. -/
def chat_message (qembed : String → List Int) (gen : String → Except String String)
    (st : AIState) (uploaded_files : List String) (messages : List Msg)
    (message : String) (now : String) : ChatOutcome :=
  let m := pyStripStr message
  if m = "" then ⟨false, "Empty message", messages, []⟩
  else if uploaded_files = [] then
    let r := "Please upload some PDF documents first before asking questions!"
    ⟨true, r, messages ++ [⟨"user", m, now⟩, ⟨"assistant", r, now⟩], []⟩
  else
    let docs := search_similar_documents qembed st m 5
    let r := generate_response gen st m docs
    ⟨true, r, messages ++ [⟨"user", m, now⟩, ⟨"assistant", r, now⟩],
      [AICall.searchDocs, AICall.generateReply]⟩

/-- EmbeddingManager.search (embedding.py): [] when no vectorstore or no
retriever exists yet (no documents uploaded), else the retriever results
(get_relevant is the langchain retriever call). -/
def embeddingManagerSearch (get_relevant : String → List Document)
    (vectorstore retriever : Option Unit) (query : String) : List Document :=
  match vectorstore, retriever with
  | some _, some _ => get_relevant query
  | _, _ => []

/- ------------------------------------------------------------------ -/
/- Helper lemmas.                                                      -/
/- ------------------------------------------------------------------ -/

theorem flat_append {α : Type} (a b : List (List α)) :
    flat (a ++ b) = flat a ++ flat b := by
  induction a with
  | nil => rfl
  | cons x xs ih => simp [flat, ih]

theorem length_le_flat {α : Type} {l : List (List α)} {x : List α} (h : x ∈ l) :
    x.length ≤ (flat l).length := by
  induction l with
  | nil => cases h
  | cons y ys ih =>
    rcases List.mem_cons.mp h with h1 | h1
    · subst h1; simp [flat]
    · have := ih h1; simp [flat]; omega

theorem flat_map_singleton (text : List Char) :
    flat (text.map (fun c => [c])) = text := by
  induction text with
  | nil => rfl
  | cons c cs ih => simp [flat, ih]

theorem flat_dropEmpties (l : List (List Char)) :
    flat (dropEmpties l) = flat l := by
  induction l with
  | nil => rfl
  | cons s rest ih =>
    by_cases h : s = []
    · simp [dropEmpties, h, flat, ih]
    · simp [dropEmpties, h, flat, ih]

theorem dropWhile_length_le (p : Char → Bool) (l : List Char) :
    (l.dropWhile p).length ≤ l.length := by
  induction l with
  | nil => simp
  | cons c cs ih =>
    by_cases h : p c
    · simp [List.dropWhile_cons, h]; omega
    · simp [List.dropWhile_cons, h]

theorem pyStrip_length_le (l : List Char) : (pyStrip l).length ≤ l.length := by
  unfold pyStrip trimEnd
  have h1 := dropWhile_length_le isPyWs l
  have h2 := dropWhile_length_le isPyWs (l.dropWhile isPyWs).reverse
  simp only [List.length_reverse] at *
  omega

theorem dropWhile_head_false (p : Char → Bool) :
    ∀ (l : List Char) (c : Char) (cs : List Char),
      l.dropWhile p = c :: cs → p c = false := by
  intro l
  induction l with
  | nil => intro c cs h; simp at h
  | cons d ds ih =>
    intro c cs h
    by_cases hd : p d
    · exact ih c cs (by simpa [List.dropWhile_cons, hd] using h)
    · rw [List.dropWhile_cons, if_neg (by simp [hd])] at h
      cases h
      simpa using hd

theorem dropWhile_suffix (p : Char → Bool) :
    ∀ l : List Char, ∃ t, t ++ l.dropWhile p = l := by
  intro l
  induction l with
  | nil => exact ⟨[], rfl⟩
  | cons c cs ih =>
    by_cases h : p c
    · rcases ih with ⟨t, ht⟩
      exact ⟨c :: t, by simp [List.dropWhile_cons, h, ht]⟩
    · exact ⟨[], by simp [List.dropWhile_cons, h]⟩

theorem dropWhile_idem (p : Char → Bool) (l : List Char) :
    (l.dropWhile p).dropWhile p = l.dropWhile p := by
  cases h : l.dropWhile p with
  | nil => rfl
  | cons c cs =>
    have := dropWhile_head_false p l c cs h
    simp [List.dropWhile_cons, this]

theorem trimEnd_idem (l : List Char) : trimEnd (trimEnd l) = trimEnd l := by
  unfold trimEnd
  rw [List.reverse_reverse, dropWhile_idem]

theorem trimEnd_prefix (l : List Char) : ∃ t, trimEnd l ++ t = l := by
  rcases dropWhile_suffix isPyWs l.reverse with ⟨t, ht⟩
  refine ⟨t.reverse, ?_⟩
  have : (t ++ l.reverse.dropWhile isPyWs).reverse = l := by rw [ht, List.reverse_reverse]
  simpa [trimEnd, List.reverse_append] using this

theorem dropWhile_trimEnd (l : List Char) (h : l.dropWhile isPyWs = l) :
    (trimEnd l).dropWhile isPyWs = trimEnd l := by
  cases he : trimEnd l with
  | nil => rfl
  | cons c cs =>
    rcases trimEnd_prefix l with ⟨t, ht⟩
    have hl : l = c :: (cs ++ t) := by rw [← ht, he]; simp
    have hdrop : l.dropWhile isPyWs = c :: (cs ++ t) := by rw [h, hl]
    have hc := dropWhile_head_false isPyWs l c (cs ++ t) hdrop
    simp [List.dropWhile_cons, hc]

theorem pyStrip_idem (l : List Char) : pyStrip (pyStrip l) = pyStrip l := by
  unfold pyStrip
  rw [dropWhile_trimEnd (l.dropWhile isPyWs) (dropWhile_idem isPyWs l), trimEnd_idem]

theorem pyStrip_nil : pyStrip [] = [] := rfl

theorem startsWith_append_drop :
    ∀ (sep text : List Char), startsWith text sep = true →
      sep ++ text.drop sep.length = text := by
  intro sep
  induction sep with
  | nil => intro text _; simp
  | cons d ds ih =>
    intro text h
    cases text with
    | nil => simp [startsWith] at h
    | cons c cs =>
      rw [startsWith] at h
      rcases (Bool.and_eq_true _ _).mp h with ⟨h1, h2⟩
      have hc : c = d := by simpa using h1
      subst hc
      have := ih cs h2
      simpa [List.length_cons, List.drop_succ_cons] using this

theorem findSep_some_spec (sep : List Char) :
    ∀ (text : List Char) (i : Nat), findSep sep text = some i →
      text.take i ++ (sep ++ text.drop (i + sep.length)) = text := by
  intro text
  induction text with
  | nil =>
    intro i h
    rw [findSep] at h
    by_cases hs : startsWith [] sep = true
    · rw [if_pos hs] at h
      cases h
      cases sep with
      | nil => simp
      | cons d ds => simp [startsWith] at hs
    · rw [if_neg hs] at h; cases h
  | cons c cs ih =>
    intro i h
    rw [findSep] at h
    by_cases hs : startsWith (c :: cs) sep = true
    · rw [if_pos hs] at h
      cases h
      simpa using startsWith_append_drop sep (c :: cs) hs
    · rw [if_neg hs] at h
      rcases Option.map_eq_some'.mp h with ⟨j, hj, hi⟩
      subst hi
      have hd : (c :: cs).drop (j + 1 + sep.length) = cs.drop (j + sep.length) := by
        have : j + 1 + sep.length = (j + sep.length) + 1 := by omega
        rw [this, List.drop_succ_cons]
      rw [List.take_succ_cons, hd, List.cons_append]
      exact congrArg (c :: ·) (ih j hj)

theorem splitOnSepF_ne_nil (sep : List Char) :
    ∀ (fuel : Nat) (text : List Char), splitOnSepF sep fuel text ≠ [] := by
  intro fuel text
  cases fuel with
  | zero => simp [splitOnSepF]
  | succ n =>
    rw [splitOnSepF]
    cases findSep sep text with
    | none => simp
    | some i => simp

theorem flat_withSepKeep_cons (sep : List Char) (p : List Char) (ps : List (List Char)) :
    flat (withSepKeep sep (p :: ps)) = p ++ flat (ps.map (fun q => sep ++ q)) := by
  simp [withSepKeep, flat]

theorem flat_map_consSep (sep : List Char) :
    ∀ (pieces : List (List Char)), pieces ≠ [] →
      flat (pieces.map (fun q => sep ++ q)) = sep ++ flat (withSepKeep sep pieces) := by
  intro pieces h
  cases pieces with
  | nil => exact absurd rfl h
  | cons p ps => simp [withSepKeep, flat, List.append_assoc]

theorem flat_withSepKeep_splitOnSepF (sep : List Char) (hsep : sep ≠ []) :
    ∀ (fuel : Nat) (text : List Char), text.length ≤ fuel →
      flat (withSepKeep sep (splitOnSepF sep fuel text)) = text := by
  intro fuel
  induction fuel with
  | zero =>
    intro text hlen
    have : text = [] := List.length_eq_zero.mp (Nat.le_zero.mp hlen)
    subst this
    simp [splitOnSepF, withSepKeep, flat]
  | succ n ih =>
    intro text hlen
    rw [splitOnSepF]
    cases hf : findSep sep text with
    | none => simp [withSepKeep, flat]
    | some i =>
      have hslen : 0 < sep.length := List.length_pos.mpr hsep
      have hdlen : (text.drop (i + sep.length)).length ≤ n := by
        simp only [List.length_drop]
        omega
      have hrec := ih (text.drop (i + sep.length)) hdlen
      have hne := splitOnSepF_ne_nil sep n (text.drop (i + sep.length))
      rw [flat_withSepKeep_cons, flat_map_consSep sep _ hne, hrec]
      exact findSep_some_spec sep text i hf

theorem flat_splitWithSep (sep text : List Char) :
    flat (splitWithSep sep text) = text := by
  unfold splitWithSep
  by_cases h : sep = []
  · rw [if_pos h]; exact flat_map_singleton text
  · rw [if_neg h, flat_dropEmpties]
    exact flat_withSepKeep_splitOnSepF sep h text.length text le_rfl

theorem splitWithSep_ne_nil (sep text : List Char) (h : text ≠ []) :
    splitWithSep sep text ≠ [] := by
  intro hc
  apply h
  have := flat_splitWithSep sep text
  rw [hc] at this
  exact this.symm

theorem splitWithSep_len_le (sep text : List Char) {s : List Char}
    (h : s ∈ splitWithSep sep text) : s.length ≤ text.length := by
  have := length_le_flat h
  rwa [flat_splitWithSep] at this

theorem chooseSepAux_spec (text : List Char) :
    ∀ (seps : List (List Char)), seps.getLast? = some [] →
      ∃ s rest, chooseSepAux text seps = some (s, rest) ∧
        ((s = [] ∧ rest = []) ∨ (s ≠ [] ∧ rest ≠ [] ∧ rest.getLast? = some [])) := by
  intro seps
  induction seps with
  | nil => intro h; simp at h
  | cons a tail ih =>
    intro h
    by_cases ha : a = []
    · exact ⟨[], [], by simp [chooseSepAux, ha], Or.inl ⟨rfl, rfl⟩⟩
    · have htail : tail ≠ [] := by
        intro ht
        subst ht
        simp at h
        exact ha h
      have hlast : tail.getLast? = some [] := by
        cases tail with
        | nil => exact absurd rfl htail
        | cons b bs => rwa [List.getLast?_cons_cons] at h
      by_cases hocc : (findSep a text).isSome
      · exact ⟨a, tail, by simp [chooseSepAux, ha, hocc], Or.inr ⟨ha, htail, hlast⟩⟩
      · rcases ih hlast with ⟨s, rest, h1, h2⟩
        exact ⟨s, rest, by simp [chooseSepAux, ha, hocc, h1], h2⟩

theorem chooseSep_cases (seps : List (List Char)) (text : List Char)
    (h : seps.getLast? = some []) :
    chooseSep seps text = ([], []) ∨
      ((chooseSep seps text).1 ≠ [] ∧ (chooseSep seps text).2 ≠ [] ∧
        (chooseSep seps text).2.getLast? = some []) := by
  rcases chooseSepAux_spec text seps h with ⟨s, rest, h1, h2⟩
  unfold chooseSep
  rw [h1]
  rcases h2 with ⟨hs, hr⟩ | ⟨hs, hr, hl⟩
  · subst hs; subst hr; exact Or.inl rfl
  · exact Or.inr ⟨hs, hr, hl⟩

theorem popLoop_spec (S O L : Nat) :
    ∀ (cur : List (List Char)) (total : Nat), total = (flat cur).length →
      (popLoop S O L cur total).2 = (flat (popLoop S O L cur total).1).length ∧
        ((popLoop S O L cur total).2 + L ≤ S ∨ (popLoop S O L cur total).2 = 0) := by
  intro cur
  induction cur with
  | nil =>
    intro total h
    simp [popLoop]
    simp [flat] at h
    constructor
    · exact h
    · exact Or.inr h
  | cons d rest ih =>
    intro total h
    rw [popLoop]
    by_cases hc : O < total ∨ (S < total + L ∧ 0 < total)
    · rw [if_pos hc]
      apply ih
      simp [flat, List.length_append] at h
      omega
    · rw [if_neg hc]
      push_neg at hc
      rcases hc with ⟨h1, h2⟩
      refine ⟨h, ?_⟩
      by_cases hsl : S < total + L
      · exact Or.inr (by have := h2 hsl; omega)
      · exact Or.inl (by omega)

theorem joinStrip_props (cur : List (List Char)) :
    ∀ x ∈ joinStrip cur,
      x.length ≤ (flat cur).length ∧ pyStrip x = x ∧ x ≠ [] := by
  intro x hx
  by_cases h : pyStrip (flat cur) = []
  · simp [joinStrip, h] at hx
  · simp [joinStrip, h] at hx
    subst hx
    exact ⟨pyStrip_length_le (flat cur), pyStrip_idem (flat cur), h⟩

theorem mergeFold_props (S O : Nat) :
    ∀ (splits : List (List Char)), (∀ s ∈ splits, s.length < S) →
      ∀ (acc : MergeAcc),
        (∀ x ∈ acc.docs, x.length ≤ S ∧ pyStrip x = x ∧ x ≠ []) →
        acc.total = (flat acc.cur).length → acc.total ≤ S →
        (∀ x ∈ (splits.foldl (mergeStep S O) acc).docs,
            x.length ≤ S ∧ pyStrip x = x ∧ x ≠ []) ∧
          (splits.foldl (mergeStep S O) acc).total =
            (flat (splits.foldl (mergeStep S O) acc).cur).length ∧
          (splits.foldl (mergeStep S O) acc).total ≤ S := by
  intro splits
  induction splits with
  | nil =>
    intro _ acc h1 h2 h3
    exact ⟨h1, h2, h3⟩
  | cons d rest ih =>
    intro hall acc h1 h2 h3
    have hd : d.length < S := hall d (List.mem_cons_self d rest)
    have hrest : ∀ s ∈ rest, s.length < S := fun s hs => hall s (List.mem_cons_of_mem d hs)
    rw [List.foldl_cons]
    apply ih hrest
    · -- docs invariant for mergeStep acc d
      intro x hx
      unfold mergeStep at hx
      by_cases hov : S < acc.total + d.length
      · rw [if_pos hov] at hx
        by_cases hcur : acc.cur = []
        · rw [if_pos hcur] at hx
          exact h1 x hx
        · rw [if_neg hcur] at hx
          simp only at hx
          rcases List.mem_append.mp hx with hx1 | hx1
          · exact h1 x hx1
          · have := joinStrip_props acc.cur x hx1
            exact ⟨le_trans this.1 (by rw [← h2]; exact h3), this.2⟩
      · rw [if_neg hov] at hx
        exact h1 x hx
    · -- total = flat length for mergeStep acc d
      unfold mergeStep
      by_cases hov : S < acc.total + d.length
      · rw [if_pos hov]
        by_cases hcur : acc.cur = []
        · rw [if_pos hcur]
          simp only
          rw [hcur] at h2 ⊢
          simp [flat] at h2 ⊢
          omega
        · rw [if_neg hcur]
          simp only
          have := (popLoop_spec S O d.length acc.cur acc.total h2).1
          rw [flat_append]
          simp [flat]
          omega
      · rw [if_neg hov]
        simp only
        rw [flat_append]
        simp [flat]
        omega
    · -- total ≤ S for mergeStep acc d
      unfold mergeStep
      by_cases hov : S < acc.total + d.length
      · rw [if_pos hov]
        by_cases hcur : acc.cur = []
        · rw [if_pos hcur]
          simp only
          rw [hcur] at h2
          simp [flat] at h2
          omega
        · rw [if_neg hcur]
          simp only
          have := (popLoop_spec S O d.length acc.cur acc.total h2).2
          omega
      · rw [if_neg hov]
        simp only
        omega

theorem mergeSplits_props (S O : Nat) (splits : List (List Char))
    (h : ∀ s ∈ splits, s.length < S) :
    ∀ x ∈ mergeSplits S O splits, x.length ≤ S ∧ pyStrip x = x ∧ x ≠ [] := by
  intro x hx
  unfold mergeSplits at hx
  have hinv := mergeFold_props S O splits h ⟨[], [], 0⟩ (by intro y hy; cases hy)
    (by simp [flat]) (by simp)
  rcases List.mem_append.mp hx with hx1 | hx1
  · exact hinv.1 x hx1
  · have := joinStrip_props _ x hx1
    exact ⟨le_trans this.1 (by rw [← hinv.2.1]; exact hinv.2.2), this.2⟩

theorem mergeFold_no_overflow (S O : Nat) :
    ∀ (splits : List (List Char)) (docs cur : List (List Char)) (total : Nat),
      total = (flat cur).length →
      (flat cur).length + (flat splits).length ≤ S →
      splits.foldl (mergeStep S O) ⟨docs, cur, total⟩ =
        ⟨docs, cur ++ splits, total + (flat splits).length⟩ := by
  intro splits
  induction splits with
  | nil =>
    intro docs cur total h1 _
    simp [flat]
  | cons d rest ih =>
    intro docs cur total h1 h2
    rw [List.foldl_cons]
    have hflat : (flat (d :: rest)).length = d.length + (flat rest).length := by
      simp [flat]
    have hov : ¬ S < total + d.length := by
      rw [h1]; omega
    have hstep : mergeStep S O ⟨docs, cur, total⟩ d = ⟨docs, cur ++ [d], total + d.length⟩ := by
      unfold mergeStep
      rw [if_neg hov]
    rw [hstep]
    have h1' : total + d.length = (flat (cur ++ [d])).length := by
      rw [flat_append]; simp [flat]; omega
    have h2' : (flat (cur ++ [d])).length + (flat rest).length ≤ S := by
      rw [flat_append]; simp [flat]; omega
    rw [ih docs (cur ++ [d]) (total + d.length) h1' h2']
    simp [flat]
    omega

theorem mergeSplits_small (S O : Nat) (splits : List (List Char))
    (h : (flat splits).length ≤ S) :
    mergeSplits S O splits = joinStrip splits := by
  have h0 : (0 : Nat) = (flat ([] : List (List Char))).length := by simp [flat]
  have h1 : (flat ([] : List (List Char))).length + (flat splits).length ≤ S := by
    simp only [flat, List.length_nil, Nat.zero_add]
    exact h
  unfold mergeSplits
  rw [mergeFold_no_overflow S O splits [] [] 0 h0 h1]
  simp

theorem splitFold_inv (S O : Nat) (ext : List Char → List (List Char))
    (P : List Char → Prop)
    (hm : ∀ g : List (List Char), (∀ s ∈ g, s.length < S) → ∀ x ∈ mergeSplits S O g, P x) :
    ∀ (splits : List (List Char)),
      (∀ s ∈ splits, ¬ s.length < S → ∀ x ∈ ext s, P x) →
      ∀ acc : SplitAcc, (∀ x ∈ acc.final, P x) → (∀ x ∈ acc.good, x.length < S) →
        (∀ x ∈ (splits.foldl (splitStep S O ext) acc).final, P x) ∧
          (∀ x ∈ (splits.foldl (splitStep S O ext) acc).good, x.length < S) := by
  intro splits
  induction splits with
  | nil =>
    intro _ acc h1 h2
    exact ⟨h1, h2⟩
  | cons s rest ih =>
    intro hext acc h1 h2
    rw [List.foldl_cons]
    apply ih (fun t ht => hext t (List.mem_cons_of_mem s ht))
    · -- final component of splitStep acc s
      intro x hx
      unfold splitStep at hx
      by_cases hgood : s.length < S
      · rw [if_pos hgood] at hx
        exact h1 x hx
      · rw [if_neg hgood] at hx
        simp only at hx
        rcases List.mem_append.mp hx with hx1 | hx1
        · by_cases hg : acc.good = []
          · rw [if_pos hg] at hx1
            exact h1 x hx1
          · rw [if_neg hg] at hx1
            rcases List.mem_append.mp hx1 with hx2 | hx2
            · exact h1 x hx2
            · exact hm acc.good h2 x hx2
        · exact hext s (List.mem_cons_self s rest) hgood x hx1
    · -- good component of splitStep acc s
      intro x hx
      unfold splitStep at hx
      by_cases hgood : s.length < S
      · rw [if_pos hgood] at hx
        simp only at hx
        rcases List.mem_append.mp hx with hx1 | hx1
        · exact h2 x hx1
        · rw [List.mem_singleton] at hx1
          subst hx1
          exact hgood
      · rw [if_neg hgood] at hx
        cases hx

theorem mem_splitWithSep_nil_sep {text : List Char} {s : List Char}
    (h : s ∈ splitWithSep [] text) : ∃ c, s = [c] := by
  unfold splitWithSep at h
  rw [if_pos rfl] at h
  rcases List.mem_map.mp h with ⟨c, _, hc⟩
  exact ⟨c, hc.symm⟩

theorem splitTextFuel_inv (S O : Nat) (P : List Char → Prop)
    (hm : ∀ g : List (List Char), (∀ s ∈ g, s.length < S) → ∀ x ∈ mergeSplits S O g, P x)
    (hchar : ∀ c : Char, ¬ (([c] : List Char).length < S) → P [c]) :
    ∀ (fuel : Nat) (seps : List (List Char)) (text : List Char),
      seps.getLast? = some [] → ∀ x ∈ splitTextFuel S O fuel seps text, P x := by
  intro fuel
  induction fuel with
  | zero =>
    intro seps text _ x hx
    have h0 : splitTextFuel S O 0 seps text = [] := rfl
    rw [h0] at hx
    cases hx
  | succ n ih =>
    intro seps text hlast x hx
    rw [splitTextFuel] at hx
    have hext : ∀ s ∈ splitWithSep (chooseSep seps text).1 text,
        ¬ s.length < S →
        ∀ y ∈ (if (chooseSep seps text).2 = [] then [s]
               else splitTextFuel S O n (chooseSep seps text).2 s), P y := by
      intro s hs hlen y hy
      rcases chooseSep_cases seps text hlast with hcs | ⟨h1, h2, h3⟩
      · rw [hcs] at hy hs
        simp at hy
        subst hy
        rcases mem_splitWithSep_nil_sep hs with ⟨c, hc⟩
        subst hc
        exact hchar c hlen
      · rw [if_neg h2] at hy
        exact ih (chooseSep seps text).2 s h3 y hy
    have hfold := splitFold_inv S O
      (fun s => if (chooseSep seps text).2 = [] then [s]
                else splitTextFuel S O n (chooseSep seps text).2 s) P hm
      (splitWithSep (chooseSep seps text).1 text)
      hext ⟨[], []⟩ (by intro y hy; cases hy) (by intro y hy; cases hy)
    by_cases hg : ((splitWithSep (chooseSep seps text).1 text).foldl
        (splitStep S O (fun s => if (chooseSep seps text).2 = [] then [s]
                else splitTextFuel S O n (chooseSep seps text).2 s)) ⟨[], []⟩).good = []
    · rw [if_pos hg] at hx
      exact hfold.1 x hx
    · rw [if_neg hg] at hx
      rcases List.mem_append.mp hx with hx1 | hx1
      · exact hfold.1 x hx1
      · exact hm _ hfold.2 x hx1

theorem splitTextFuel_len_le (S O : Nat) (hS : 0 < S) (fuel : Nat)
    (seps : List (List Char)) (text : List Char) (h : seps.getLast? = some []) :
    ∀ x ∈ splitTextFuel S O fuel seps text, x.length ≤ S := by
  apply splitTextFuel_inv S O (fun x => x.length ≤ S)
    (fun g hg x hx => (mergeSplits_props S O g hg x hx).1)
    (fun c _ => by simpa using hS)
  exact h

theorem splitTextFuel_strip_fix (S O : Nat) (hS : 2 ≤ S) (fuel : Nat)
    (seps : List (List Char)) (text : List Char) (h : seps.getLast? = some []) :
    ∀ x ∈ splitTextFuel S O fuel seps text,
      x.length ≤ S ∧ pyStrip x = x ∧ x ≠ [] := by
  apply splitTextFuel_inv S O (fun x => x.length ≤ S ∧ pyStrip x = x ∧ x ≠ [])
    (fun g hg x hx => mergeSplits_props S O g hg x hx)
    (fun c hc => absurd (by simp; omega) hc)
  exact h

theorem repoSeparators_last : repoSeparators.getLast? = some [] := rfl

theorem split_text_len_le (S O : Nat) (hS : 0 < S) (text : List Char) :
    ∀ x ∈ split_text S O text, x.length ≤ S :=
  splitTextFuel_len_le S O hS repoSeparators.length repoSeparators text repoSeparators_last

theorem split_text_strip_fix (S O : Nat) (hS : 2 ≤ S) (text : List Char) :
    ∀ x ∈ split_text S O text, x.length ≤ S ∧ pyStrip x = x ∧ x ≠ [] :=
  splitTextFuel_strip_fix S O hS repoSeparators.length repoSeparators text repoSeparators_last

theorem foldl_splitStep_all_good (S O : Nat) (ext : List Char → List (List Char)) :
    ∀ (splits : List (List Char)) (acc : SplitAcc),
      (∀ s ∈ splits, s.length < S) →
      splits.foldl (splitStep S O ext) acc = ⟨acc.final, acc.good ++ splits⟩ := by
  intro splits
  induction splits with
  | nil => intro acc _; simp
  | cons s rest ih =>
    intro acc hall
    rw [List.foldl_cons]
    have hs : s.length < S := hall s (List.mem_cons_self s rest)
    have hstep : splitStep S O ext acc s = ⟨acc.final, acc.good ++ [s]⟩ := by
      unfold splitStep
      rw [if_pos hs]
    rw [hstep, ih ⟨acc.final, acc.good ++ [s]⟩ (fun t ht => hall t (List.mem_cons_of_mem s ht))]
    simp

theorem splitTextFuel_small (S O : Nat) (fuel : Nat) (seps : List (List Char))
    (text : List Char) (hlen : text.length < S) (hne : text ≠ []) :
    splitTextFuel S O (fuel + 1) seps text =
      if pyStrip text = [] then [] else [pyStrip text] := by
  rw [splitTextFuel]
  have hflat : flat (splitWithSep (chooseSep seps text).1 text) = text :=
    flat_splitWithSep (chooseSep seps text).1 text
  have hall : ∀ s ∈ splitWithSep (chooseSep seps text).1 text, s.length < S := by
    intro s hs
    have := splitWithSep_len_le (chooseSep seps text).1 text hs
    omega
  rw [foldl_splitStep_all_good S O _ (splitWithSep (chooseSep seps text).1 text) ⟨[], []⟩ hall]
  have hsne : splitWithSep (chooseSep seps text).1 text ≠ [] :=
    splitWithSep_ne_nil (chooseSep seps text).1 text hne
  simp only [List.nil_append]
  rw [if_neg hsne]
  have hsmall : (flat (splitWithSep (chooseSep seps text).1 text)).length ≤ S := by
    rw [hflat]; omega
  rw [mergeSplits_small S O _ hsmall]
  unfold joinStrip
  rw [hflat]

theorem split_text_small (S O : Nat) (text : List Char)
    (hlen : text.length < S) (hne : pyStrip text ≠ []) :
    split_text S O text = [pyStrip text] := by
  have htext : text ≠ [] := by
    intro h
    subst h
    exact hne pyStrip_nil
  have h4 : repoSeparators.length = 3 + 1 := rfl
  unfold split_text
  rw [h4, splitTextFuel_small S O 3 repoSeparators text hlen htext, if_neg hne]

theorem buildDocs_mem (filename : String) (total : Nat) :
    ∀ (chunks : List (List Char)) (i : Nat) (d : Document),
      d ∈ buildDocs filename total chunks i →
      ∃ c, c ∈ chunks ∧ d.page_content = String.mk (pyStrip c) := by
  intro chunks
  induction chunks with
  | nil => intro i d h; cases h
  | cons c rest ih =>
    intro i d h
    rw [buildDocs] at h
    by_cases hc : pyStrip c = []
    · simp only [hc, if_pos] at h
      rcases ih (i + 1) d (by simpa using h) with ⟨c2, hc2, hd⟩
      exact ⟨c2, List.mem_cons_of_mem c hc2, hd⟩
    · simp only [if_neg hc] at h
      rcases List.mem_cons.mp h with h1 | h1
      · subst h1
        exact ⟨c, List.mem_cons_self c rest, rfl⟩
      · rcases ih (i + 1) d h1 with ⟨c2, hc2, hd⟩
        exact ⟨c2, List.mem_cons_of_mem c hc2, hd⟩

theorem string_mk_length (l : List Char) : (String.mk l).length = l.length := rfl

theorem string_mk_ne_empty {l : List Char} (h : l ≠ []) : String.mk l ≠ "" := by
  intro hc
  apply h
  have := congrArg String.data hc
  simpa using this

theorem buildDocs_all_kept (filename : String) (total : Nat) :
    ∀ (chunks : List (List Char)) (i : Nat),
      (∀ c ∈ chunks, pyStrip c = c ∧ c ≠ []) →
      (buildDocs filename total chunks i).map Document.chunk_id =
          List.range' i chunks.length ∧
        (buildDocs filename total chunks i).length = chunks.length ∧
        ∀ d ∈ buildDocs filename total chunks i,
          d.source = filename ∧ d.total_chunks = total ∧
            pyStripStr d.page_content = d.page_content ∧ d.page_content ≠ "" := by
  intro chunks
  induction chunks with
  | nil =>
    intro i _
    refine ⟨rfl, rfl, ?_⟩
    intro d hd
    cases hd
  | cons c rest ih =>
    intro i hall
    have hc := hall c (List.mem_cons_self c rest)
    have hrest := fun t ht => hall t (List.mem_cons_of_mem c ht)
    have hcne : pyStrip c ≠ [] := by rw [hc.1]; exact hc.2
    have hbd : buildDocs filename total (c :: rest) i =
        ⟨String.mk (pyStrip c), filename, i, total⟩ :: buildDocs filename total rest (i + 1) := by
      rw [buildDocs]
      simp only [if_neg hcne]
    rcases ih (i + 1) hrest with ⟨h1, h2, h3⟩
    refine ⟨?_, ?_, ?_⟩
    · rw [hbd]
      simp only [List.map_cons, h1, List.length_cons, List.range'_succ]
    · rw [hbd]
      simp only [List.length_cons, h2]
    · intro d hd
      rw [hbd] at hd
      rcases List.mem_cons.mp hd with h4 | h4
      · subst h4
        refine ⟨rfl, rfl, ?_, ?_⟩
        · show String.mk (pyStrip (pyStrip c)) = String.mk (pyStrip c)
          rw [pyStrip_idem]
        · exact string_mk_ne_empty hcne
      · exact h3 d h4

/-- Claim C4: for every chunk configuration with overlap < size, the
chunker succeeds on every content (it can only fail on an invalid
configuration) and every produced segment has length at most size. -/
theorem c4_chunker_bounds (S O : Nat) (text : List Char) (filename : String)
    (h : O < S) :
    ∃ docs, create_text_chunks text filename S O = Except.ok docs ∧
      ∀ d ∈ docs, d.page_content.length ≤ S := by
  refine ⟨buildDocs filename (split_text S O text).length (split_text S O text) 0, ?_, ?_⟩
  · unfold create_text_chunks
    rw [if_neg (by omega)]
  · intro d hd
    rcases buildDocs_mem filename (split_text S O text).length (split_text S O text) 0 d hd
      with ⟨c, hc, hpc⟩
    have h1 : c.length ≤ S := split_text_len_le S O (by omega) text c hc
    have h2 : (pyStrip c).length ≤ c.length := pyStrip_length_le c
    rw [hpc, string_mk_length]
    omega

/-- Claim C4 witness: a concrete valid configuration on concrete content. -/
theorem c4_chunker_bounds_witness :
    (1 : Nat) < 5 ∧
      ∃ docs, create_text_chunks (['a', 'b', ' ', 'c', 'd', ' ', 'e', 'f', 'g', 'h', 'i'])
          "f.pdf" 5 1 = Except.ok docs ∧ ∀ d ∈ docs, d.page_content.length ≤ 5 :=
  ⟨by decide, c4_chunker_bounds 5 1 (['a', 'b', ' ', 'c', 'd', ' ', 'e', 'f', 'g', 'h', 'i'])
    "f.pdf" (by decide)⟩

/-- Claim C8: non-empty, non-whitespace text shorter than the chunk size
yields exactly one segment whose text is the trimmed input (chunk_id 0,
total_chunks 1). -/
theorem c8_short_text_single_chunk (S O : Nat) (text : List Char) (filename : String)
    (hO : O < S) (hlen : text.length < S) (hne : pyStrip text ≠ []) :
    create_text_chunks text filename S O =
      Except.ok [⟨String.mk (pyStrip text), filename, 0, 1⟩] := by
  unfold create_text_chunks
  rw [if_neg (by omega)]
  rw [split_text_small S O text hlen hne]
  have hb : buildDocs filename 1 [pyStrip text] 0 =
      [⟨String.mk (pyStrip (pyStrip text)), filename, 0, 1⟩] := by
    rw [buildDocs]
    simp only [pyStrip_idem, if_neg hne]
    rfl
  show Except.ok (buildDocs filename 1 [pyStrip text] 0) =
    Except.ok [(⟨String.mk (pyStrip text), filename, 0, 1⟩ : Document)]
  rw [hb, pyStrip_idem]

/-- Claim C8 witness: a concrete short text. -/
theorem c8_short_text_single_chunk_witness :
    (2 : Nat) < 10 ∧ ([' ', 'h', 'i', ' ', 'y', 'o'] : List Char).length < 10 ∧
      pyStrip [' ', 'h', 'i', ' ', 'y', 'o'] ≠ [] ∧
      create_text_chunks [' ', 'h', 'i', ' ', 'y', 'o'] "f.pdf" 10 2 =
        Except.ok [⟨String.mk (pyStrip [' ', 'h', 'i', ' ', 'y', 'o']), "f.pdf", 0, 1⟩] :=
  ⟨by decide, by decide, by decide,
    c8_short_text_single_chunk 10 2 [' ', 'h', 'i', ' ', 'y', 'o'] "f.pdf"
      (by decide) (by decide) (by decide)⟩

/-- Claim C9 counterexample: with the valid configuration size 1, overlap
0 and the text "a b", the splitter produces the candidates ["a", " ", "b"];
the whitespace candidate is dropped, but chunk_id still enumerates the
pre-filter candidates and total_chunks counts them, so the two kept
segments are NOT tagged with their ordinal among the kept segments
([0, 2] instead of [0, 1]) nor with the count of kept segments (3 instead
of 2). -/
theorem c9_tagging_counterexample :
    ∃ docs, create_text_chunks ['a', ' ', 'b'] "f.pdf" 1 0 = Except.ok docs ∧
      ¬ (docs.map Document.chunk_id = List.range docs.length ∧
          ∀ d ∈ docs, d.total_chunks = docs.length) := by
  refine ⟨[⟨"a", "f.pdf", 0, 3⟩, ⟨"b", "f.pdf", 2, 3⟩], rfl, by decide⟩

/-- Claim C9 (amended): for every text and every configuration with
overlap < size and size at least 2, no produced candidate is
whitespace-only, so every chunk is kept: each kept segment has non-empty
text that is already stripped, is tagged with its ordinal position among
the kept segments, the total count of kept segments, and the source
identifier.  (At size 1 degenerate whitespace candidates can be produced
and dropped, and the recorded position/total then refer to the pre-filter
candidate list, as the counterexample shows.) -/
theorem c9_tagging_amended (S O : Nat) (text : List Char) (filename : String)
    (hO : O < S) (hS : 2 ≤ S) :
    ∃ docs, create_text_chunks text filename S O = Except.ok docs ∧
      docs.map Document.chunk_id = List.range docs.length ∧
      ∀ d ∈ docs, d.source = filename ∧ d.total_chunks = docs.length ∧
        pyStripStr d.page_content = d.page_content ∧ d.page_content ≠ "" := by
  have hall : ∀ c ∈ split_text S O text, pyStrip c = c ∧ c ≠ [] := by
    intro c hc
    have := split_text_strip_fix S O hS text c hc
    exact ⟨this.2.1, this.2.2⟩
  rcases buildDocs_all_kept filename (split_text S O text).length (split_text S O text) 0 hall
    with ⟨h1, h2, h3⟩
  refine ⟨buildDocs filename (split_text S O text).length (split_text S O text) 0, ?_, ?_, ?_⟩
  · unfold create_text_chunks
    rw [if_neg (by omega)]
  · rw [h1, h2, List.range_eq_range']
  · intro d hd
    rcases h3 d hd with ⟨ha, hb, hcq, hdq⟩
    exact ⟨ha, by rw [hb, h2], hcq, hdq⟩

/-- Claim C9 amended witness: a concrete text at a size-2 configuration. -/
theorem c9_tagging_amended_witness :
    (0 : Nat) < 2 ∧ (2 : Nat) ≤ 2 ∧
      ∃ docs, create_text_chunks ['a', ' ', 'b'] "f.pdf" 2 0 = Except.ok docs ∧
        docs.map Document.chunk_id = List.range docs.length ∧
        ∀ d ∈ docs, d.source = "f.pdf" ∧ d.total_chunks = docs.length ∧
          pyStripStr d.page_content = d.page_content ∧ d.page_content ≠ "" :=
  ⟨by decide, by decide,
    c9_tagging_amended 2 0 ['a', ' ', 'b'] "f.pdf" (by decide) (by decide)⟩

theorem upload_documents_avail (emb : String → List Int) (st : AIState)
    (b : List (List Document)) :
    (upload_documents emb st b).embeddings_available = st.embeddings_available := by
  by_cases h : flat b = [] <;> by_cases h2 : st.embeddings_available = false <;>
    simp [upload_documents, create_embeddings, h, h2]

theorem create_embeddings_avail_true (emb : String → List Int) (st : AIState)
    (chunks : List Document) (h : st.embeddings_available = true) :
    create_embeddings emb st chunks =
      (true,
        { st with
          document_chunks := chunks
          faiss_index := some (chunks.map (fun c => emb c.page_content)) }) := by
  unfold create_embeddings
  rw [if_neg (by rw [h]; simp)]

theorem upload_documents_eq (emb : String → List Int) (st : AIState)
    (b : List (List Document)) (h : st.embeddings_available = true) (hne : flat b ≠ []) :
    upload_documents emb st b =
      { st with
        document_chunks := flat b
        faiss_index := some ((flat b).map (fun c => emb c.page_content)) } := by
  simp only [upload_documents]
  rw [if_neg hne, create_embeddings_avail_true emb st (flat b) h]

/-- Claim C1 counterexample: two sequential uploads of two segments each,
starting from a fresh state with embeddings available; the corpus used by
subsequent searches afterwards is exactly the second batch (size 2), not
the combined four segments. -/
theorem c1_cumulative_counterexample :
    (upload_documents (fun _ => [0])
        (upload_documents (fun _ => [0]) ⟨true, true, [], none⟩
          [[⟨"s1", "a.pdf", 0, 2⟩, ⟨"s2", "a.pdf", 1, 2⟩]])
        [[⟨"s3", "b.pdf", 0, 2⟩, ⟨"s4", "b.pdf", 1, 2⟩]]).document_chunks =
      [⟨"s3", "b.pdf", 0, 2⟩, ⟨"s4", "b.pdf", 1, 2⟩] ∧
      (upload_documents (fun _ => [0])
        (upload_documents (fun _ => [0]) ⟨true, true, [], none⟩
          [[⟨"s1", "a.pdf", 0, 2⟩, ⟨"s2", "a.pdf", 1, 2⟩]])
        [[⟨"s3", "b.pdf", 0, 2⟩, ⟨"s4", "b.pdf", 1, 2⟩]]).document_chunks.length ≠ 4 :=
  ⟨rfl, by decide⟩

/-- Claim C1 (amended): the upload operation REPLACES the corpus: after
any two upload calls (embeddings available, second batch non-empty) the
corpus and the index hold exactly the segments of the most recent upload
batch, whatever was uploaded before. -/
theorem c1_corpus_replaced (emb : String → List Int) (st : AIState)
    (b1 b2 : List (List Document)) (hav : st.embeddings_available = true)
    (hne : flat b2 ≠ []) :
    (upload_documents emb (upload_documents emb st b1) b2).document_chunks = flat b2 ∧
      (upload_documents emb (upload_documents emb st b1) b2).faiss_index =
        some ((flat b2).map (fun c => emb c.page_content)) := by
  have hav1 : (upload_documents emb st b1).embeddings_available = true := by
    rw [upload_documents_avail]; exact hav
  rw [upload_documents_eq emb (upload_documents emb st b1) b2 hav1 hne]
  exact ⟨rfl, rfl⟩

/-- Claim C1 amended witness. -/
theorem c1_corpus_replaced_witness :
    (⟨true, true, [], none⟩ : AIState).embeddings_available = true ∧
      flat [[(⟨"s3", "b.pdf", 0, 2⟩ : Document), ⟨"s4", "b.pdf", 1, 2⟩]] ≠ [] ∧
      ((upload_documents (fun _ => [0])
          (upload_documents (fun _ => [0]) ⟨true, true, [], none⟩
            [[⟨"s1", "a.pdf", 0, 2⟩, ⟨"s2", "a.pdf", 1, 2⟩]])
          [[⟨"s3", "b.pdf", 0, 2⟩, ⟨"s4", "b.pdf", 1, 2⟩]]).document_chunks =
        flat ([[⟨"s3", "b.pdf", 0, 2⟩, ⟨"s4", "b.pdf", 1, 2⟩]] : List (List Document)) ∧
        (upload_documents (fun _ => [0])
          (upload_documents (fun _ => [0]) ⟨true, true, [], none⟩
            [[⟨"s1", "a.pdf", 0, 2⟩, ⟨"s2", "a.pdf", 1, 2⟩]])
          [[⟨"s3", "b.pdf", 0, 2⟩, ⟨"s4", "b.pdf", 1, 2⟩]]).faiss_index =
          some ((flat ([[⟨"s3", "b.pdf", 0, 2⟩, ⟨"s4", "b.pdf", 1, 2⟩]] : List (List Document))).map
            (fun c => (fun _ => ([0] : List Int)) c.page_content))) :=
  ⟨rfl, by decide,
    c1_corpus_replaced (fun _ => [0]) ⟨true, true, [], none⟩
      [[⟨"s1", "a.pdf", 0, 2⟩, ⟨"s2", "a.pdf", 1, 2⟩]]
      [[⟨"s3", "b.pdf", 0, 2⟩, ⟨"s4", "b.pdf", 1, 2⟩]] rfl (by decide)⟩

/-- Claim C2, evaluated at the failing input: a corpus of one stored
segment (one vector), k = 5 (the k the chat route uses).  faiss pads the
missing four neighbors with label -1; the idx < len(document_chunks) guard
passes -1 and Python negative indexing maps it to the last chunk, so the
search returns FIVE results (the single stored chunk repeated five times)
instead of exactly one distinct result. -/
theorem c2_search_padding_duplicates :
    search_similar_documents (fun _ => [0])
        ⟨true, true, [⟨"seg", "a.pdf", 0, 1⟩], some [[0]]⟩ ("q") 5 =
      [⟨"seg", "a.pdf", 0, 1⟩, ⟨"seg", "a.pdf", 0, 1⟩, ⟨"seg", "a.pdf", 0, 1⟩,
        ⟨"seg", "a.pdf", 0, 1⟩, ⟨"seg", "a.pdf", 0, 1⟩] ∧
      (search_similar_documents (fun _ => [0])
        ⟨true, true, [⟨"seg", "a.pdf", 0, 1⟩], some [[0]]⟩ ("q") 5).length ≠ 1 :=
  ⟨rfl, by decide⟩

theorem chat_message_eq_empty_files (qe : String → List Int)
    (gen : String → Except String String) (st : AIState) (msgs : List Msg)
    (message now : String) (hm : pyStripStr message ≠ "") :
    chat_message qe gen st [] msgs message now =
      ⟨true, "Please upload some PDF documents first before asking questions!",
        msgs ++ [⟨"user", pyStripStr message, now⟩,
          ⟨"assistant", "Please upload some PDF documents first before asking questions!", now⟩],
        []⟩ := by
  simp only [chat_message]
  rw [if_neg hm]
  simp

theorem chat_message_eq_files (qe : String → List Int)
    (gen : String → Except String String) (st : AIState) (files : List String)
    (msgs : List Msg) (message now : String)
    (hm : pyStripStr message ≠ "") (hf : files ≠ []) :
    chat_message qe gen st files msgs message now =
      ⟨true,
        generate_response gen st (pyStripStr message)
          (search_similar_documents qe st (pyStripStr message) 5),
        msgs ++ [⟨"user", pyStripStr message, now⟩,
          ⟨"assistant",
            generate_response gen st (pyStripStr message)
              (search_similar_documents qe st (pyStripStr message) 5), now⟩],
        [AICall.searchDocs, AICall.generateReply]⟩ := by
  simp only [chat_message]
  rw [if_neg hm, if_neg hf]

/-- Claim C3: on a session with no uploaded documents, a (non-empty)
chat message is answered with the literal fixed upload prompt, the call
trace is empty (no embedder, no index search, no generator), and the turn
succeeds. -/
theorem c3_empty_state_fixed_reply (qe : String → List Int)
    (gen : String → Except String String) (st : AIState) (msgs : List Msg)
    (message now : String) (hm : pyStripStr message ≠ "") :
    (chat_message qe gen st [] msgs message now).success = true ∧
      (chat_message qe gen st [] msgs message now).response =
        "Please upload some PDF documents first before asking questions!" ∧
      (chat_message qe gen st [] msgs message now).calls = [] := by
  rw [chat_message_eq_empty_files qe gen st msgs message now hm]
  exact ⟨rfl, rfl, rfl⟩

/-- Claim C3 witness. -/
theorem c3_empty_state_fixed_reply_witness :
    pyStripStr ("what is this about?") ≠ "" ∧
      ((chat_message (fun _ => [0]) (fun _ => Except.ok ("a")) ⟨true, true, [], none⟩ []
          [] ("what is this about?") ("t0")).success = true ∧
        (chat_message (fun _ => [0]) (fun _ => Except.ok ("a")) ⟨true, true, [], none⟩ []
          [] ("what is this about?") ("t0")).response =
          "Please upload some PDF documents first before asking questions!" ∧
        (chat_message (fun _ => [0]) (fun _ => Except.ok ("a")) ⟨true, true, [], none⟩ []
          [] ("what is this about?") ("t0")).calls = []) :=
  ⟨by decide,
    c3_empty_state_fixed_reply (fun _ => [0]) (fun _ => Except.ok ("a"))
      ⟨true, true, [], none⟩ [] ("what is this about?") ("t0") (by decide)⟩

/-- Claim C10: every successful chat_message call (message non-empty after
stripping) appends exactly two entries to the session message list, in
order: a user turn whose content is the stripped input, then an assistant
turn whose content is the returned response, both with the same timestamp;
the existing entries are kept unchanged as a prefix. -/
theorem c10_two_turns_appended (qe : String → List Int)
    (gen : String → Except String String) (st : AIState) (files : List String)
    (msgs : List Msg) (message now : String) (hm : pyStripStr message ≠ "") :
    (chat_message qe gen st files msgs message now).success = true ∧
      (chat_message qe gen st files msgs message now).messages =
        msgs ++ [⟨"user", pyStripStr message, now⟩,
          ⟨"assistant", (chat_message qe gen st files msgs message now).response, now⟩] := by
  by_cases hf : files = []
  · subst hf
    rw [chat_message_eq_empty_files qe gen st msgs message now hm]
    exact ⟨rfl, rfl⟩
  · rw [chat_message_eq_files qe gen st files msgs message now hm hf]
    exact ⟨rfl, rfl⟩

/-- Claim C10 witness. -/
theorem c10_two_turns_appended_witness :
    pyStripStr ("  hi there ") ≠ "" ∧
      ((chat_message (fun _ => [0]) (fun _ => Except.ok ("ans")) ⟨true, true, [], none⟩
          ["a.pdf"] [] ("  hi there ") ("t0")).success = true ∧
        (chat_message (fun _ => [0]) (fun _ => Except.ok ("ans")) ⟨true, true, [], none⟩
          ["a.pdf"] [] ("  hi there ") ("t0")).messages =
          [] ++ [⟨"user", pyStripStr ("  hi there "), "t0"⟩,
            ⟨"assistant",
              (chat_message (fun _ => [0]) (fun _ => Except.ok ("ans")) ⟨true, true, [], none⟩
                ["a.pdf"] [] ("  hi there ") ("t0")).response, "t0"⟩]) :=
  ⟨by decide,
    c10_two_turns_appended (fun _ => [0]) (fun _ => Except.ok ("ans")) ⟨true, true, [], none⟩
      ["a.pdf"] [] ("  hi there ") ("t0") (by decide)⟩

/-- Claim C5: when the generative integration is unavailable, or every
generation call fails, the chat turn still succeeds, the response is one
of the two human-readable placeholder strings (never an exception to the
caller), and the turn is still recorded: the user turn and the assistant
turn carrying the placeholder are appended to the history. -/
theorem c5_degraded_turn_recorded (qe : String → List Int)
    (gen : String → Except String String) (st : AIState) (files : List String)
    (msgs : List Msg) (message now err : String)
    (hm : pyStripStr message ≠ "") (hf : files ≠ [])
    (hfail : st.gemini_available = false ∨ ∀ p, gen p = Except.error err) :
    (chat_message qe gen st files msgs message now).success = true ∧
      ((chat_message qe gen st files msgs message now).response =
          "AI is currently unavailable. Please check your API configuration." ∨
        (chat_message qe gen st files msgs message now).response =
          "I apologize, but I encountered an error: " ++ err) ∧
      (chat_message qe gen st files msgs message now).messages =
        msgs ++ [⟨"user", pyStripStr message, now⟩,
          ⟨"assistant", (chat_message qe gen st files msgs message now).response, now⟩] := by
  rw [chat_message_eq_files qe gen st files msgs message now hm hf]
  refine ⟨rfl, ?_, rfl⟩
  unfold generate_response
  rcases hfail with h | h
  · rw [if_pos h]
    exact Or.inl rfl
  · by_cases hg : st.gemini_available = false
    · rw [if_pos hg]
      exact Or.inl rfl
    · rw [if_neg hg, h _]
      exact Or.inr rfl

/-- Claim C5 witness: gemini not configured. -/
theorem c5_degraded_turn_recorded_witness :
    pyStripStr ("hello") ≠ "" ∧ (["a.pdf"] : List String) ≠ [] ∧
      ((⟨false, true, [], none⟩ : AIState).gemini_available = false ∨
        ∀ p, (fun _ => Except.ok ("x") : String → Except String String) p =
          Except.error "boom") ∧
      ((chat_message (fun _ => [0]) (fun _ => Except.ok ("x")) ⟨false, true, [], none⟩
          ["a.pdf"] [] ("hello") ("t0")).success = true ∧
        ((chat_message (fun _ => [0]) (fun _ => Except.ok ("x")) ⟨false, true, [], none⟩
            ["a.pdf"] [] ("hello") ("t0")).response =
            "AI is currently unavailable. Please check your API configuration." ∨
          (chat_message (fun _ => [0]) (fun _ => Except.ok ("x")) ⟨false, true, [], none⟩
            ["a.pdf"] [] ("hello") ("t0")).response =
            "I apologize, but I encountered an error: " ++ "boom") ∧
        (chat_message (fun _ => [0]) (fun _ => Except.ok ("x")) ⟨false, true, [], none⟩
          ["a.pdf"] [] ("hello") ("t0")).messages =
          [] ++ [⟨"user", pyStripStr ("hello"), "t0"⟩,
            ⟨"assistant",
              (chat_message (fun _ => [0]) (fun _ => Except.ok ("x")) ⟨false, true, [], none⟩
                ["a.pdf"] [] ("hello") ("t0")).response, "t0"⟩]) :=
  ⟨by decide, by decide, Or.inl rfl,
    c5_degraded_turn_recorded (fun _ => [0]) (fun _ => Except.ok ("x"))
      ⟨false, true, [], none⟩ ["a.pdf"] [] ("hello") ("t0") ("boom")
      (by decide) (by decide) (Or.inl rfl)⟩

/-- Claim C7: retrieval with no index built yet returns the empty list and
never raises — both in app.py (faiss index None) and in embedding.py
(vectorstore/retriever None); totality of the model functions is the
no-raise guarantee. -/
theorem c7_empty_corpus_retrieval_empty (qe : String → List Int) (st : AIState)
    (q : String) (k : Nat) (res : String → List Document)
    (h : st.faiss_index = none) :
    search_similar_documents qe st q k = [] ∧
      embeddingManagerSearch res none none q = [] := by
  constructor
  · unfold search_similar_documents
    rw [h]
    by_cases hb : st.embeddings_available = false
    · rw [if_pos hb]
    · rw [if_neg hb]
  · rfl

/-- Claim C7 witness. -/
theorem c7_empty_corpus_retrieval_empty_witness :
    (⟨true, true, [], none⟩ : AIState).faiss_index = none ∧
      (search_similar_documents (fun _ => [0]) ⟨true, true, [], none⟩ ("q") 5 = [] ∧
        embeddingManagerSearch (fun _ => []) none none ("q") = []) :=
  ⟨rfl,
    c7_empty_corpus_retrieval_empty (fun _ => [0]) ⟨true, true, [], none⟩ ("q") 5
      (fun _ => []) rfl⟩

/-- Claim C6 counterexample: with an empty sequence of context segments
the context section of the prompt is the empty string — the prompt leaves
the section blank (the full prompt on a sample query is shown verbatim,
with nothing between the context header line and the blank line before
the question); chat.py's fallback system message in the same situation
does not mention context at all.  The prompt therefore does not itself
state that no context was found. -/
theorem c6_blank_context_counterexample :
    contextOf [] = "" ∧
      aiPrompt [] ("what is this?") =
        "You are a helpful AI assistant that answers questions based on the provided context from uploaded PDF documents.\n\nContext from uploaded documents:\n\n\nUser Question: what is this?\n\nInstructions:\n- Answer the question based on the context provided\n- If the answer is not in the context, say so politely\n- Be concise but informative\n- If no context is provided, mention that no documents were found\n\nAnswer:" ∧
      chatFallbackSystemMessage [] =
        "You are a helpful AI assistant. Answer the user\x27s question to the best of your ability." :=
  ⟨rfl, rfl, rfl⟩

/-- Claim C6 (amended): when the context segment sequence is empty the
context section of the prompt is left blank; the model is not told inline
that no context was found, but every prompt (with or without context)
carries the fixed standing instruction that tells the model to mention
that no documents were found when no context is provided. -/
theorem c6_blank_context_amended (q : String) :
    contextOf [] = "" ∧
      aiPrompt [] q = promptHeader ++ (promptMid ++ (q ++ promptTail)) ∧
      promptTail =
        "\n\nInstructions:\n- Answer the question based on the context provided\n- If the answer is not in the context, say so politely\n- Be concise but informative\n- " ++
          ("If no context is provided, mention that no documents were found" ++ "\n\nAnswer:") :=
  ⟨rfl, rfl, rfl⟩
